import Mathlib

/-!
Verification of the classification-code validation-and-retry loop of
`el-buen-editor` (`functions/src/index.ts`).

The embedding below translates the TypeScript functions `detectInvalidCodes`,
`normalizeClassificationItems`, `normalizeClassifications`,
`buildCorrectionPrompt` and the retry loop of `getEditorialAnalysis` into
Lean.  JavaScript `Set.has` on a set built from a list is membership in the
list; `Map.get` on a map built from a `{code, description}` list is a
last-entry-wins association lookup; `a || b` on strings treats the empty
string as falsy.  The static vocabulary data files
(`data/materiasBisac`, `data/materiasThema`, `data/materiasIbic`,
`data/etiquetas`) are not among the sources, so every definition is
parameterised by a `Vocab` record holding those lists, following the description of
the vocabulary store in the spec.
-/

namespace ElBuenEditor

/-- One `{code, description}` entry of a controlled-vocabulary list
(`MATERIAS_BISAC` / `MATERIAS_THEMA` / `MATERIAS_IBIC` element shape). -/
structure VocabEntry where
  code : String
  description : String
deriving DecidableEq

/-- Modelled from the spec: the static vocabulary data files imported by
`functions/src/index.ts` (`MATERIAS_BISAC`, `MATERIAS_THEMA`, `MATERIAS_IBIC`,
`ETIQUETAS`) are not present among the available sources; per the spec they
are "three static lists of `{code, description}` pairs (one per scheme) and
one static list of valid tag strings". -/
structure Vocab where
  etiquetas : List String
  bisac : List VocabEntry
  thema : List VocabEntry
  ibic : List VocabEntry

/-- The valid-code set of one scheme: `new Set(MATERIAS_X.map((m) => m.code))`.
Membership in the JavaScript set is membership in this list. -/
def codesOf (entries : List VocabEntry) : List String :=
  entries.map (fun e => e.code)

/-- Lookup `new Map(MATERIAS_X.map((m) => [m.code, m.description])).get k`:
JavaScript `Map` construction lets a later duplicate key overwrite an earlier
one, so the lookup returns the last matching entry; `none` models
`undefined`. -/
def jsMapGet : List VocabEntry → String → Option String
  | [], _ => none
  | e :: rest, k =>
    match jsMapGet rest k with
    | some d => some d
    | none => if e.code = k then some e.description else none

/-- JavaScript `a || b` where `a` is `codeMap.get(...)`: `undefined` and the
empty string are falsy, everything else is returned unchanged. -/
def jsOrElse : Option String → String → String
  | some d, fb => if d = "" then fb else d
  | none, fb => fb

/-- One `{code, description, justification}` item of one classification tier
(`functions/src/types.ts`). -/
structure ClassificationItem where
  code : String
  description : String
  justification : String
deriving DecidableEq

/-- Translation of `SubjectClassification` of `functions/src/types.ts`: the three priority
tiers of one scheme. -/
structure SubjectClassification where
  main : List ClassificationItem
  secondary : List ClassificationItem
  related : List ClassificationItem
deriving DecidableEq

/-- The `classifications` field of `AnalysisResult`: one
`SubjectClassification` per scheme. -/
structure Classifications where
  bisac : SubjectClassification
  thema : SubjectClassification
  ibic : SubjectClassification
deriving DecidableEq

/-- The `citations` field of `AnalysisResult`. -/
structure Citations where
  apa : String
  mla : String
  chicago : String
  harvard : String
  vancouver : String
deriving DecidableEq

/-- Translation of `Omit<AnalysisResult, "wordCount" | "rawText">`: the candidate parsed
from one model response. -/
structure Candidate where
  title : String
  foundSubtitle : Option String
  subtitleSuggestions : List String
  authorName : String
  authorBio : String
  synopsis : String
  tags : List String
  classifications : Classifications
  citations : Citations
deriving DecidableEq

/-- Translation of `AnalysisResult` of `functions/src/types.ts`: the candidate fields plus
`wordCount` and `rawText`. -/
structure AnalysisResult extends Candidate where
  wordCount : Int
  rawText : String
deriving DecidableEq

/-- Translation of `ValidationResult` of `functions/src/index.ts`. -/
structure ValidationResult where
  isValid : Bool
  invalidTags : List String
  invalidBisac : List String
  invalidThema : List String
  invalidIbic : List String
deriving DecidableEq

/-- The inner `getInvalidCodes` helper of `detectInvalidCodes`: concatenate
the three tiers, keep the items whose code is not in the valid-code set, and
return their codes. -/
def getInvalidCodes (classification : SubjectClassification)
    (validCodes : List String) : List String :=
  ((classification.main ++ classification.secondary ++ classification.related).filter
    (fun item => !(validCodes.contains item.code))).map (fun item => item.code)

/-- Translation of `detectInvalidCodes` of `functions/src/index.ts`. -/
def detectInvalidCodes (V : Vocab) (result : Candidate) : ValidationResult :=
  let invalidTags := result.tags.filter (fun tag => !(V.etiquetas.contains tag))
  let invalidBisac := getInvalidCodes result.classifications.bisac (codesOf V.bisac)
  let invalidThema := getInvalidCodes result.classifications.thema (codesOf V.thema)
  let invalidIbic := getInvalidCodes result.classifications.ibic (codesOf V.ibic)
  { isValid := invalidTags.length == 0 && invalidBisac.length == 0 &&
      invalidThema.length == 0 && invalidIbic.length == 0
    invalidTags := invalidTags
    invalidBisac := invalidBisac
    invalidThema := invalidThema
    invalidIbic := invalidIbic }

/-- The per-item map of `normalizeClassificationItems`:
`{...item, description: codeMap.get(item.code) || item.description}`. -/
def normalizeItem (codeMap : List VocabEntry) (item : ClassificationItem) :
    ClassificationItem :=
  { item with description := jsOrElse (jsMapGet codeMap item.code) item.description }

/-- Translation of `normalizeClassificationItems` of `functions/src/index.ts`: drop the items
with invalid codes, rewrite the surviving descriptions. -/
def normalizeClassificationItems (items : List ClassificationItem)
    (validCodes : List String) (codeMap : List VocabEntry) : List ClassificationItem :=
  (items.filter (fun item => validCodes.contains item.code)).map (normalizeItem codeMap)

/-- The inner `normalizeSubject` helper of `normalizeClassifications`. -/
def normalizeSubject (subject : SubjectClassification) (validCodes : List String)
    (codeMap : List VocabEntry) : SubjectClassification :=
  { main := normalizeClassificationItems subject.main validCodes codeMap
    secondary := normalizeClassificationItems subject.secondary validCodes codeMap
    related := normalizeClassificationItems subject.related validCodes codeMap }

/-- Translation of `normalizeClassifications` of `functions/src/index.ts`. -/
def normalizeClassifications (V : Vocab) (classifications : Classifications) :
    Classifications :=
  { bisac := normalizeSubject classifications.bisac (codesOf V.bisac) V.bisac
    thema := normalizeSubject classifications.thema (codesOf V.thema) V.thema
    ibic := normalizeSubject classifications.ibic (codesOf V.ibic) V.ibic }

/-- The `normalizedResult` construction of `getEditorialAnalysis` (the function the spec
calls `normalize(candidate)`): filter the tags, normalize the classifications, keep
every other field. -/
def normalizeCandidate (V : Vocab) (result : Candidate) : Candidate :=
  { result with
    tags := result.tags.filter (fun tag => V.etiquetas.contains tag)
    classifications := normalizeClassifications V result.classifications }

/-- JavaScript `Array.prototype.join(sep)`. -/
def joinSep (sep : String) : List String → String
  | [] => ""
  | [x] => x
  | x :: y :: rest => x ++ sep ++ joinSep sep (y :: rest)

/-- Label opening the rejected-tags block of the correction prompt. -/
def tagsLabel : String := "\n**Etiquetas rechazadas** (NO existen): "

/-- Label opening the rejected-BISAC block of the correction prompt. -/
def bisacLabel : String := "\n**Códigos BISAC rechazados** (NO existen): "

/-- Label opening the rejected-THEMA block of the correction prompt. -/
def themaLabel : String := "\n**Códigos THEMA rechazados** (NO existen): "

/-- Label opening the rejected-IBIC block of the correction prompt. -/
def ibicLabel : String := "\n**Códigos IBIC rechazados** (NO existen): "

/-- The rejected-tags block pushed onto `parts` when `invalidTags` is
non-empty. -/
def tagsBlock (l : List String) : String :=
  tagsLabel ++ joinSep ", " l ++
    "\n→ Reemplázalas por etiquetas de la LISTA CERRADA proporcionada.\n"

/-- The rejected-BISAC block pushed onto `parts` when `invalidBisac` is
non-empty. -/
def bisacBlock (l : List String) : String :=
  bisacLabel ++ joinSep ", " l ++
    "\n→ Usa SOLO códigos del LISTADO COMPLETO DE MATERIAS BISAC.\n"

/-- The rejected-THEMA block pushed onto `parts` when `invalidThema` is
non-empty. -/
def themaBlock (l : List String) : String :=
  themaLabel ++ joinSep ", " l ++
    "\n→ Usa SOLO códigos del LISTADO COMPLETO DE MATERIAS THEMA.\n"

/-- The rejected-IBIC block pushed onto `parts` when `invalidIbic` is
non-empty. -/
def ibicBlock (l : List String) : String :=
  ibicLabel ++ joinSep ", " l ++
    "\n→ Usa SOLO códigos del LISTADO COMPLETO DE MATERIAS IBIC.\n"

/-- Translation of `buildCorrectionPrompt` of `functions/src/index.ts`: the source pushes the
header, one block per non-empty invalid-list, and the footer onto a `parts`
array and returns `parts.join("")`, which is this concatenation. -/
def buildCorrectionPrompt (validation : ValidationResult) : String :=
  "\n\n# ⚠️ CORRECCIÓN REQUERIDA - CÓDIGOS RECHAZADOS\n" ++
  "Tu respuesta anterior contenía códigos INVÁLIDOS que NO existen en los listados oficiales. Debes reemplazarlos por códigos que SÍ existan.\n" ++
  (if validation.invalidTags.length > 0 then tagsBlock validation.invalidTags else "") ++
  (if validation.invalidBisac.length > 0 then bisacBlock validation.invalidBisac else "") ++
  (if validation.invalidThema.length > 0 then themaBlock validation.invalidThema else "") ++
  (if validation.invalidIbic.length > 0 then ibicBlock validation.invalidIbic else "") ++
  "\n**IMPORTANTE**: Revisa los listados proporcionados y selecciona ÚNICAMENTE códigos que aparezcan textualmente en ellos.\n"

/-- Does the character list start with the second argument? -/
def startsWithL : List Char → List Char → Bool
  | _, [] => true
  | [], _ :: _ => false
  | a :: s, b :: p => (a == b) && startsWithL s p

/-- Does the needle occur as a contiguous run inside the haystack? -/
def hasSubL : List Char → List Char → Bool
  | [], needle => needle.isEmpty
  | a :: s, needle => startsWithL (a :: s) needle || hasSubL s needle

/-- Substring containment on strings (JavaScript `haystack.includes(needle)`). -/
def strHas (s needle : String) : Bool := hasSubL s.data needle.data

/-- What `getEditorialAnalysis` sends back to the HTTP caller: a 200 response
with the analysis payload, or the generic 500 produced by the catch handler. -/
inductive HttpResponse
  | ok (result : AnalysisResult)
  | err
deriving DecidableEq

/-- Outcome of the retry while-loop together with the prompt used at each
performed attempt: `failed` models an exception reaching the catch handler
before any candidate survives (gateway failure, or a loop that never ran),
`finished` models leaving the loop with `resultJson` set to the candidate of
the last performed attempt and `validation` set to its validation. -/
inductive LoopResult
  | failed (promptsUsed : List String)
  | finished (promptsUsed : List String) (last : Candidate) (validation : ValidationResult)
deriving DecidableEq

/-- The retry while-loop of `getEditorialAnalysis`.  `gw attempt prompt`
models one `ai.models.generateContent` call followed by the empty-response
check and `JSON.parse`: `none` stands for an empty response, a transport
error or a parse error, each of which throws; `some c` for the parsed
candidate.  `fuel` is the number of attempts the loop may still perform
(initially `MAX_RETRIES`), `attempt` the 1-based index of the attempt about
to run, `cur` the `currentPrompt` variable and `acc` the prompts used so far.
On a failed validation with attempts left, the source sets
`currentPrompt = basePrompt + buildCorrectionPrompt(validation)`. -/
def loopGo (V : Vocab) (gw : Nat → String → Option Candidate) (base : String) :
    Nat → Nat → String → List String → LoopResult
  | 0, _, _, acc => .failed acc
  | fuel + 1, attempt, cur, acc =>
    match gw attempt cur with
    | none => .failed (acc ++ [cur])
    | some c =>
      let v := detectInvalidCodes V c
      if v.isValid then .finished (acc ++ [cur]) c v
      else if fuel = 0 then .finished (acc ++ [cur]) c v
      else loopGo V gw base fuel (attempt + 1)
        (base ++ buildCorrectionPrompt v) (acc ++ [cur])

/-- The `const MAX_RETRIES = 3` constant of `getEditorialAnalysis`. -/
def MAX_RETRIES : Nat := 3

/-- The body of `getEditorialAnalysis` after request validation, with the
base prompt injected (the source builds it from a fixed template, the
manuscript truncated to 100000 characters, and the vocabulary listings).
Returns the prompt of every gateway invocation performed, paired with the
HTTP response: after the loop the source throws if no candidate was ever
parsed, and otherwise unconditionally builds `normalizedResult` from the last
candidate and responds with it plus `wordCount` and `rawText: text`. -/
def runAnalysis (V : Vocab) (gw : Nat → String → Option Candidate) (base : String)
    (text : String) (wordCount : Int) (maxRetries : Nat) : List String × HttpResponse :=
  match loopGo V gw base maxRetries 1 base [] with
  | .failed used => (used, .err)
  | .finished used last _ =>
    (used, .ok { toCandidate := normalizeCandidate V last
                 wordCount := wordCount
                 rawText := text })

/-- The full `getEditorialAnalysis` with the constant retry bound of the source. -/
def getEditorialAnalysis (V : Vocab) (gw : Nat → String → Option Candidate)
    (base text : String) (wordCount : Int) : List String × HttpResponse :=
  runAnalysis V gw base text wordCount MAX_RETRIES

/-- The prompts component of a loop outcome. -/
def LoopResult.prompts : LoopResult → List String
  | .failed used => used
  | .finished used _ _ => used

/-- Concrete vocabulary of the test scenario in the spec:
`ValidTags = {"novela","thriller"}`,
`ValidBisac = {"FIC000000": "Fiction / General"}`. -/
def vocabEx : Vocab :=
  { etiquetas := ["novela", "thriller"]
    bisac := [⟨"FIC000000", "Fiction / General"⟩]
    thema := []
    ibic := [] }

/-- Classifications whose nine tiers are all empty. -/
def emptyCls : Classifications := ⟨⟨[], [], []⟩, ⟨[], [], []⟩, ⟨[], [], []⟩⟩

/-- Citations placeholder for concrete candidates. -/
def citEx : Citations := ⟨"", "", "", "", ""⟩

/-- A concrete candidate carrying a single tag and nothing else. -/
def candWithTag (t : String) : Candidate :=
  { title := "", foundSubtitle := none, subtitleSuggestions := []
    authorName := "", authorBio := "", synopsis := ""
    tags := [t], classifications := emptyCls, citations := citEx }

/-- A concrete candidate that is fully valid for `vocabEx`. -/
def candValid : Candidate := candWithTag "novela"

/-- A gateway stub whose first response carries the invalid tag `"AAATAG"`
and whose later responses carry the invalid tag `"BBBTAG"`. -/
def gwTwoTags : Nat → String → Option Candidate :=
  fun attempt _ =>
    if attempt = 1 then some (candWithTag "AAATAG") else some (candWithTag "BBBTAG")

/-- The codes present in the output of one scheme, across its three tiers. -/
def tierCodes (s : SubjectClassification) : List String :=
  (s.main ++ s.secondary ++ s.related).map (fun i => i.code)

/-- Per-tier content of C4: the surviving items are exactly the valid-code
input items in their original order with `code` and `justification`
untouched, and every surviving description is the canonical one from the
code-to-description map of the scheme. -/
def tierNormalized (entries : List VocabEntry)
    (input output : List ClassificationItem) : Prop :=
  (output.map (fun i => (i.code, i.justification)) =
    (input.filter (fun i => (codesOf entries).contains i.code)).map
      (fun i => (i.code, i.justification))) ∧
  ∀ i ∈ output, jsMapGet entries i.code = some i.description

/-- Validation report of the first concrete scenario in the spec. -/
def vScenario : ValidationResult := ⟨false, ["poesía"], ["FIC999999"], [], []⟩

/-- Candidate of the second concrete scenario in the spec: a valid BISAC code with
a wrong model-supplied description. -/
def candScenario2 : Candidate :=
  { title := "", foundSubtitle := none, subtitleSuggestions := []
    authorName := "", authorBio := "", synopsis := ""
    tags := ["novela"]
    classifications := ⟨⟨[⟨"FIC000000", "Wrong text", "y"⟩], [], []⟩,
      ⟨[], [], []⟩, ⟨[], [], []⟩⟩
    citations := citEx }

/-- A gateway stub that always answers with a fully valid candidate. -/
def gwAlwaysValid : Nat → String → Option Candidate := fun _ _ => some candValid

/-- A gateway stub that always answers with a candidate carrying one invalid
tag. -/
def gwAlwaysInvalid : Nat → String → Option Candidate :=
  fun _ _ => some (candWithTag "AAATAG")

/-- A gateway stub that always fails (empty response / transport error /
parse error). -/
def gwAlwaysNone : Nat → String → Option Candidate := fun _ _ => none

theorem normalizeItem_code (m : List VocabEntry) (i : ClassificationItem) :
    (normalizeItem m i).code = i.code := rfl

theorem nCI_mem_valid {items : List ClassificationItem} {codes : List String}
    {m : List VocabEntry} {i : ClassificationItem}
    (hi : i ∈ normalizeClassificationItems items codes m) :
    codes.contains i.code = true := by
  rw [normalizeClassificationItems] at hi
  obtain ⟨j, hj, rfl⟩ := List.mem_map.mp hi
  simpa [normalizeItem] using (List.mem_filter.mp hj).2

theorem nS_mem_valid {s : SubjectClassification} {codes : List String}
    {m : List VocabEntry} {i : ClassificationItem}
    (hi : i ∈ (normalizeSubject s codes m).main ++ (normalizeSubject s codes m).secondary ++
      (normalizeSubject s codes m).related) :
    codes.contains i.code = true := by
  rcases List.mem_append.mp hi with hi' | hi'
  · rcases List.mem_append.mp hi' with hi'' | hi''
    · exact nCI_mem_valid hi''
    · exact nCI_mem_valid hi''
  · exact nCI_mem_valid hi'

theorem getInvalidCodes_normalized (s : SubjectClassification) (codes : List String)
    (m : List VocabEntry) :
    getInvalidCodes (normalizeSubject s codes m) codes = [] := by
  rw [getInvalidCodes]
  have h : ((normalizeSubject s codes m).main ++ (normalizeSubject s codes m).secondary ++
      (normalizeSubject s codes m).related).filter (fun i => !(codes.contains i.code)) = [] := by
    rw [List.filter_eq_nil_iff]
    intro i hi
    simpa using nS_mem_valid hi
  rw [h]
  simp

theorem tags_normalized_filter_nil (l : List String) (p : String → Bool) :
    (l.filter p).filter (fun a => !(p a)) = [] := by
  rw [List.filter_eq_nil_iff]
  intro a ha
  simp [(List.mem_filter.mp ha).2]

/-- C1: every tag and classification code in the output of `normalize` belongs
to the corresponding vocabulary set, and the validator accepts the normalized
result: `detectInvalidCodes(normalize(x)).isValid = true` for every candidate
`x` and every vocabulary. -/
theorem normalize_sound (V : Vocab) (x : Candidate) :
    ((normalizeCandidate V x).tags.all (fun tag => V.etiquetas.contains tag) = true) ∧
    ((tierCodes (normalizeCandidate V x).classifications.bisac).all
        (fun c => (codesOf V.bisac).contains c) = true) ∧
    ((tierCodes (normalizeCandidate V x).classifications.thema).all
        (fun c => (codesOf V.thema).contains c) = true) ∧
    ((tierCodes (normalizeCandidate V x).classifications.ibic).all
        (fun c => (codesOf V.ibic).contains c) = true) ∧
    (detectInvalidCodes V (normalizeCandidate V x)).isValid = true := by
  refine ⟨?_, ?_, ?_, ?_, ?_⟩
  · rw [List.all_eq_true]
    intro t ht
    exact (List.mem_filter.mp ht).2
  · rw [List.all_eq_true]
    intro c hc
    obtain ⟨i, hi, rfl⟩ := List.mem_map.mp hc
    exact nS_mem_valid hi
  · rw [List.all_eq_true]
    intro c hc
    obtain ⟨i, hi, rfl⟩ := List.mem_map.mp hc
    exact nS_mem_valid hi
  · rw [List.all_eq_true]
    intro c hc
    obtain ⟨i, hi, rfl⟩ := List.mem_map.mp hc
    exact nS_mem_valid hi
  · show (detectInvalidCodes V (normalizeCandidate V x)).isValid = true
    rw [detectInvalidCodes]
    simp only [normalizeCandidate, normalizeClassifications]
    rw [tags_normalized_filter_nil, getInvalidCodes_normalized,
      getInvalidCodes_normalized, getInvalidCodes_normalized]
    rfl

theorem jsOrElse_idem (o : Option String) (x : String) :
    jsOrElse o (jsOrElse o x) = jsOrElse o x := by
  cases o with
  | none => rfl
  | some d =>
    by_cases h : d = "" <;> simp [jsOrElse, h]

theorem normalizeItem_idem (m : List VocabEntry) (i : ClassificationItem) :
    normalizeItem m (normalizeItem m i) = normalizeItem m i := by
  cases i with
  | mk c d j => simp [normalizeItem, jsOrElse_idem]

theorem nCI_cons (i : ClassificationItem) (rest : List ClassificationItem)
    (codes : List String) (m : List VocabEntry) :
    normalizeClassificationItems (i :: rest) codes m =
      if codes.contains i.code then
        normalizeItem m i :: normalizeClassificationItems rest codes m
      else normalizeClassificationItems rest codes m := by
  by_cases h : codes.contains i.code
  · rw [if_pos h, normalizeClassificationItems, normalizeClassificationItems,
      show List.filter (fun item => codes.contains item.code) (i :: rest) =
          i :: List.filter (fun item => codes.contains item.code) rest from
        List.filter_cons_of_pos h,
      List.map_cons]
  · rw [if_neg h, normalizeClassificationItems, normalizeClassificationItems,
      show List.filter (fun item => codes.contains item.code) (i :: rest) =
          List.filter (fun item => codes.contains item.code) rest from
        List.filter_cons_of_neg h]

theorem nCI_idem (items : List ClassificationItem) (codes : List String)
    (m : List VocabEntry) :
    normalizeClassificationItems (normalizeClassificationItems items codes m) codes m =
      normalizeClassificationItems items codes m := by
  induction items with
  | nil => rfl
  | cons i rest ih =>
    by_cases h : codes.contains i.code
    · rw [nCI_cons, if_pos h, nCI_cons,
        if_pos (show codes.contains (normalizeItem m i).code = true from h),
        normalizeItem_idem, ih]
    · rw [nCI_cons, if_neg (show ¬codes.contains i.code = true from h), ih]

theorem nS_idem (s : SubjectClassification) (codes : List String) (m : List VocabEntry) :
    normalizeSubject (normalizeSubject s codes m) codes m = normalizeSubject s codes m := by
  cases s with
  | mk a b c => simp [normalizeSubject, nCI_idem]

/-- C2: normalization is idempotent, for every candidate and every
vocabulary; applying it to an already-normalized result is a no-op. -/
theorem normalize_idempotent (V : Vocab) (x : Candidate) :
    normalizeCandidate V (normalizeCandidate V x) = normalizeCandidate V x := by
  cases x with
  | mk t fs ss an ab sy tags cls cit =>
    cases cls with
    | mk cb ct ci =>
      simp only [normalizeCandidate, normalizeClassifications]
      simp [List.filter_filter, nS_idem]

/-- C3: `detectInvalidCodes` returns exactly the out-of-vocabulary tags; per
scheme it returns the code values (not the items) of the out-of-vocabulary
items of `main ++ secondary ++ related`; `isValid` holds iff all four
invalid-lists are empty; and a candidate whose tags and nine tiers are all
empty arrays is valid. -/
theorem detectInvalidCodes_spec (V : Vocab) (x : Candidate) :
    ((detectInvalidCodes V x).invalidTags =
      x.tags.filter (fun tag => !(V.etiquetas.contains tag))) ∧
    ((detectInvalidCodes V x).invalidBisac =
      ((x.classifications.bisac.main ++ x.classifications.bisac.secondary ++
          x.classifications.bisac.related).filter
        (fun i => !((codesOf V.bisac).contains i.code))).map (fun i => i.code)) ∧
    ((detectInvalidCodes V x).invalidThema =
      ((x.classifications.thema.main ++ x.classifications.thema.secondary ++
          x.classifications.thema.related).filter
        (fun i => !((codesOf V.thema).contains i.code))).map (fun i => i.code)) ∧
    ((detectInvalidCodes V x).invalidIbic =
      ((x.classifications.ibic.main ++ x.classifications.ibic.secondary ++
          x.classifications.ibic.related).filter
        (fun i => !((codesOf V.ibic).contains i.code))).map (fun i => i.code)) ∧
    ((detectInvalidCodes V x).isValid = true ↔
      (detectInvalidCodes V x).invalidTags = [] ∧
      (detectInvalidCodes V x).invalidBisac = [] ∧
      (detectInvalidCodes V x).invalidThema = [] ∧
      (detectInvalidCodes V x).invalidIbic = []) ∧
    (∀ (t : String) (fs : Option String) (ss : List String) (an ab sy : String)
        (cit : Citations),
      (detectInvalidCodes V
        ⟨t, fs, ss, an, ab, sy, [], ⟨⟨[], [], []⟩, ⟨[], [], []⟩, ⟨[], [], []⟩⟩, cit⟩).isValid =
        true) := by
  refine ⟨rfl, rfl, rfl, rfl, ?_, ?_⟩
  · show (_ && _ && _ && _) = true ↔ _
    simp [detectInvalidCodes, List.length_eq_zero, and_assoc]
  · intro t fs ss an ab sy cit
    rfl

theorem jsMapGet_mem {entries : List VocabEntry} {k d : String}
    (h : jsMapGet entries k = some d) :
    ∃ e ∈ entries, e.code = k ∧ e.description = d := by
  induction entries with
  | nil => cases h
  | cons e rest ih =>
    rw [jsMapGet] at h
    cases hr : jsMapGet rest k with
    | some d2 =>
      rw [hr] at h
      have hd2 : d2 = d := Option.some.inj h
      subst hd2
      obtain ⟨e2, he2, hc, hdd⟩ := ih hr
      exact ⟨e2, List.mem_cons_of_mem _ he2, hc, hdd⟩
    | none =>
      rw [hr] at h
      by_cases hek : e.code = k
      · rw [if_pos hek] at h
        exact ⟨e, List.mem_cons_self _ _, hek, Option.some.inj h⟩
      · rw [if_neg hek] at h
        cases h

theorem jsMapGet_isSome_of_mem {entries : List VocabEntry} {k : String}
    (h : k ∈ codesOf entries) : ∃ d, jsMapGet entries k = some d := by
  induction entries with
  | nil => simp [codesOf] at h
  | cons e rest ih =>
    cases hr : jsMapGet rest k with
    | some d => exact ⟨d, by rw [jsMapGet, hr]⟩
    | none =>
      have hek : e.code = k := by
        rw [show codesOf (e :: rest) = e.code :: codesOf rest from rfl] at h
        rcases List.mem_cons.mp h with h1 | h2
        · exact h1.symm
        · obtain ⟨d, hd⟩ := ih h2
          rw [hd] at hr
          cases hr
      exact ⟨e.description, by rw [jsMapGet, hr, if_pos hek]⟩

theorem tierNormalized_nCI (entries : List VocabEntry)
    (hne : ∀ e ∈ entries, e.description ≠ "") (items : List ClassificationItem) :
    tierNormalized entries items
      (normalizeClassificationItems items (codesOf entries) entries) := by
  constructor
  · rw [normalizeClassificationItems, List.map_map]
    rfl
  · intro i hi
    rw [normalizeClassificationItems] at hi
    obtain ⟨j, hj, rfl⟩ := List.mem_map.mp hi
    have hcj : (codesOf entries).contains j.code = true := (List.mem_filter.mp hj).2
    have hmem : j.code ∈ codesOf entries := by simpa using hcj
    obtain ⟨d, hd⟩ := jsMapGet_isSome_of_mem hmem
    obtain ⟨e, he, hec, hed⟩ := jsMapGet_mem hd
    have hdne : d ≠ "" := hed ▸ hne e he
    have hdesc : (normalizeItem entries j).description = d := by
      show jsOrElse (jsMapGet entries j.code) j.description = d
      rw [hd]
      simp [jsOrElse, hdne]
    rw [show (normalizeItem entries j).code = j.code from rfl, hd, hdesc]

/-- C4: `normalize` keeps exactly the in-vocabulary tags, in order, with no
substitution; per scheme and tier it drops the items whose code is out of
vocabulary and rewrites every kept description to the canonical description
of the code, leaving `code` and `justification` unchanged.  The vocabulary
data files are not among the sources; following the description in the spec of the
code-to-official-description maps, canonical descriptions are assumed
non-empty (an empty one would be falsy in the expression
`codeMap.get(item.code) || item.description` of the source). -/
theorem normalize_shape (V : Vocab) (x : Candidate)
    (hB : ∀ e ∈ V.bisac, e.description ≠ "")
    (hT : ∀ e ∈ V.thema, e.description ≠ "")
    (hI : ∀ e ∈ V.ibic, e.description ≠ "") :
    ((normalizeCandidate V x).tags =
      x.tags.filter (fun tag => V.etiquetas.contains tag)) ∧
    tierNormalized V.bisac x.classifications.bisac.main
      (normalizeCandidate V x).classifications.bisac.main ∧
    tierNormalized V.bisac x.classifications.bisac.secondary
      (normalizeCandidate V x).classifications.bisac.secondary ∧
    tierNormalized V.bisac x.classifications.bisac.related
      (normalizeCandidate V x).classifications.bisac.related ∧
    tierNormalized V.thema x.classifications.thema.main
      (normalizeCandidate V x).classifications.thema.main ∧
    tierNormalized V.thema x.classifications.thema.secondary
      (normalizeCandidate V x).classifications.thema.secondary ∧
    tierNormalized V.thema x.classifications.thema.related
      (normalizeCandidate V x).classifications.thema.related ∧
    tierNormalized V.ibic x.classifications.ibic.main
      (normalizeCandidate V x).classifications.ibic.main ∧
    tierNormalized V.ibic x.classifications.ibic.secondary
      (normalizeCandidate V x).classifications.ibic.secondary ∧
    tierNormalized V.ibic x.classifications.ibic.related
      (normalizeCandidate V x).classifications.ibic.related := by
  exact ⟨rfl,
    tierNormalized_nCI V.bisac hB _, tierNormalized_nCI V.bisac hB _,
    tierNormalized_nCI V.bisac hB _,
    tierNormalized_nCI V.thema hT _, tierNormalized_nCI V.thema hT _,
    tierNormalized_nCI V.thema hT _,
    tierNormalized_nCI V.ibic hI _, tierNormalized_nCI V.ibic hI _,
    tierNormalized_nCI V.ibic hI _⟩

theorem startsWithL_nil (s : List Char) : startsWithL s [] = true := by
  cases s <;> rfl

theorem startsWithL_append_self (pre rest : List Char) :
    startsWithL (pre ++ rest) pre = true := by
  induction pre with
  | nil => exact startsWithL_nil rest
  | cons b p ih => simp [startsWithL, ih]

theorem startsWithL_append_left (s t n : List Char) (h : startsWithL s n = true) :
    startsWithL (s ++ t) n = true := by
  induction n generalizing s with
  | nil => exact startsWithL_nil _
  | cons b p ih =>
    cases s with
    | nil => simp [startsWithL] at h
    | cons a s2 =>
      rw [startsWithL, Bool.and_eq_true] at h
      rw [List.cons_append, startsWithL, Bool.and_eq_true]
      exact ⟨h.1, ih s2 h.2⟩

theorem hasSubL_of_startsWith (s n : List Char) (h : startsWithL s n = true) :
    hasSubL s n = true := by
  cases s with
  | nil =>
    cases n with
    | nil => rfl
    | cons b p => simp [startsWithL] at h
  | cons a s2 => simp [hasSubL, h]

theorem hasSubL_append_self (pre rest : List Char) :
    hasSubL (pre ++ rest) pre = true :=
  hasSubL_of_startsWith _ _ (startsWithL_append_self pre rest)

theorem hasSubL_append_left (s t n : List Char) (h : hasSubL s n = true) :
    hasSubL (s ++ t) n = true := by
  induction s with
  | nil =>
    cases n with
    | nil =>
      cases t with
      | nil => rfl
      | cons a s2 => simp [hasSubL, startsWithL_nil]
    | cons b p => simp [hasSubL] at h
  | cons a s2 ih =>
    rw [hasSubL, Bool.or_eq_true] at h
    rcases h with h | h
    · rw [List.cons_append, hasSubL, Bool.or_eq_true]
      exact Or.inl (by
        have := startsWithL_append_left (a :: s2) t n h
        simpa using this)
    · rw [List.cons_append, hasSubL, Bool.or_eq_true]
      exact Or.inr (ih h)

theorem hasSubL_append_right (s t n : List Char) (h : hasSubL t n = true) :
    hasSubL (s ++ t) n = true := by
  induction s with
  | nil => simpa using h
  | cons a s2 ih =>
    rw [List.cons_append, hasSubL, Bool.or_eq_true]
    exact Or.inr ih

theorem strHas_append_left (s t n : String) (h : strHas s n = true) :
    strHas (s ++ t) n = true := by
  rw [strHas, String.data_append]
  exact hasSubL_append_left _ _ _ h

theorem strHas_append_right (s t n : String) (h : strHas t n = true) :
    strHas (s ++ t) n = true := by
  rw [strHas, String.data_append]
  exact hasSubL_append_right _ _ _ h

theorem strHas_self (s : String) : strHas s s = true := by
  rw [strHas]
  have := hasSubL_append_self s.data []
  simpa using this

theorem strHas_append_self (s t : String) : strHas (s ++ t) s = true :=
  strHas_append_left s t s (strHas_self s)

theorem strHas_joinSep (sep : String) (l : List String) (x : String) (hx : x ∈ l) :
    strHas (joinSep sep l) x = true := by
  induction l with
  | nil => cases hx
  | cons y rest ih =>
    rcases List.mem_cons.mp hx with rfl | hx2
    · cases rest with
      | nil => exact strHas_self x
      | cons z rs =>
        rw [joinSep]
        exact strHas_append_left _ _ _ (strHas_append_self x sep)
    · cases rest with
      | nil => cases hx2
      | cons z rs =>
        rw [joinSep]
        exact strHas_append_right (y ++ sep) _ _ (ih hx2)

theorem strHas_bcp_of_tagsBlock (v : ValidationResult) (n : String)
    (h : v.invalidTags.length > 0) (hn : strHas (tagsBlock v.invalidTags) n = true) :
    strHas (buildCorrectionPrompt v) n = true := by
  rw [buildCorrectionPrompt, if_pos h]
  exact strHas_append_left _ _ _ (strHas_append_left _ _ _ (strHas_append_left _ _ _
    (strHas_append_left _ _ _ (strHas_append_right _ _ _ hn))))

theorem strHas_bcp_of_bisacBlock (v : ValidationResult) (n : String)
    (h : v.invalidBisac.length > 0) (hn : strHas (bisacBlock v.invalidBisac) n = true) :
    strHas (buildCorrectionPrompt v) n = true := by
  rw [buildCorrectionPrompt, if_pos h]
  exact strHas_append_left _ _ _ (strHas_append_left _ _ _ (strHas_append_left _ _ _
    (strHas_append_right _ _ _ hn)))

theorem strHas_bcp_of_themaBlock (v : ValidationResult) (n : String)
    (h : v.invalidThema.length > 0) (hn : strHas (themaBlock v.invalidThema) n = true) :
    strHas (buildCorrectionPrompt v) n = true := by
  rw [buildCorrectionPrompt, if_pos h]
  exact strHas_append_left _ _ _ (strHas_append_left _ _ _
    (strHas_append_right _ _ _ hn))

theorem strHas_bcp_of_ibicBlock (v : ValidationResult) (n : String)
    (h : v.invalidIbic.length > 0) (hn : strHas (ibicBlock v.invalidIbic) n = true) :
    strHas (buildCorrectionPrompt v) n = true := by
  rw [buildCorrectionPrompt, if_pos h]
  exact strHas_append_left _ _ _ (strHas_append_right _ _ _ hn)

theorem strHas_tagsBlock_code (l : List String) (n : String) (hn : n ∈ l) :
    strHas (tagsBlock l) n = true := by
  rw [tagsBlock]
  exact strHas_append_left _ _ _ (strHas_append_right _ _ _ (strHas_joinSep _ _ _ hn))

theorem strHas_tagsBlock_label (l : List String) :
    strHas (tagsBlock l) tagsLabel = true := by
  rw [tagsBlock]
  exact strHas_append_left _ _ _ (strHas_append_self _ _)

theorem strHas_bisacBlock_code (l : List String) (n : String) (hn : n ∈ l) :
    strHas (bisacBlock l) n = true := by
  rw [bisacBlock]
  exact strHas_append_left _ _ _ (strHas_append_right _ _ _ (strHas_joinSep _ _ _ hn))

theorem strHas_bisacBlock_label (l : List String) :
    strHas (bisacBlock l) bisacLabel = true := by
  rw [bisacBlock]
  exact strHas_append_left _ _ _ (strHas_append_self _ _)

theorem strHas_themaBlock_code (l : List String) (n : String) (hn : n ∈ l) :
    strHas (themaBlock l) n = true := by
  rw [themaBlock]
  exact strHas_append_left _ _ _ (strHas_append_right _ _ _ (strHas_joinSep _ _ _ hn))

theorem strHas_themaBlock_label (l : List String) :
    strHas (themaBlock l) themaLabel = true := by
  rw [themaBlock]
  exact strHas_append_left _ _ _ (strHas_append_self _ _)

theorem strHas_ibicBlock_code (l : List String) (n : String) (hn : n ∈ l) :
    strHas (ibicBlock l) n = true := by
  rw [ibicBlock]
  exact strHas_append_left _ _ _ (strHas_append_right _ _ _ (strHas_joinSep _ _ _ hn))

theorem strHas_ibicBlock_label (l : List String) :
    strHas (ibicBlock l) ibicLabel = true := by
  rw [ibicBlock]
  exact strHas_append_left _ _ _ (strHas_append_self _ _)

/-- C5: for a failing validation, the correction prompt contains verbatim
every rejected value of each of the four invalid-lists, and every non-empty
list contributes its own labeled block (none is silently omitted). -/
theorem buildCorrectionPrompt_complete (v : ValidationResult)
    (hv : v.isValid = false) :
    (∀ t ∈ v.invalidTags, strHas (buildCorrectionPrompt v) t = true) ∧
    (∀ c ∈ v.invalidBisac, strHas (buildCorrectionPrompt v) c = true) ∧
    (∀ c ∈ v.invalidThema, strHas (buildCorrectionPrompt v) c = true) ∧
    (∀ c ∈ v.invalidIbic, strHas (buildCorrectionPrompt v) c = true) ∧
    (v.invalidTags ≠ [] → strHas (buildCorrectionPrompt v) tagsLabel = true) ∧
    (v.invalidBisac ≠ [] → strHas (buildCorrectionPrompt v) bisacLabel = true) ∧
    (v.invalidThema ≠ [] → strHas (buildCorrectionPrompt v) themaLabel = true) ∧
    (v.invalidIbic ≠ [] → strHas (buildCorrectionPrompt v) ibicLabel = true) := by
  refine ⟨?_, ?_, ?_, ?_, ?_, ?_, ?_, ?_⟩
  · intro t ht
    exact strHas_bcp_of_tagsBlock v t (List.length_pos.mpr (List.ne_nil_of_mem ht))
      (strHas_tagsBlock_code _ _ ht)
  · intro c hc
    exact strHas_bcp_of_bisacBlock v c (List.length_pos.mpr (List.ne_nil_of_mem hc))
      (strHas_bisacBlock_code _ _ hc)
  · intro c hc
    exact strHas_bcp_of_themaBlock v c (List.length_pos.mpr (List.ne_nil_of_mem hc))
      (strHas_themaBlock_code _ _ hc)
  · intro c hc
    exact strHas_bcp_of_ibicBlock v c (List.length_pos.mpr (List.ne_nil_of_mem hc))
      (strHas_ibicBlock_code _ _ hc)
  · intro h
    exact strHas_bcp_of_tagsBlock v _ (List.length_pos.mpr h) (strHas_tagsBlock_label _)
  · intro h
    exact strHas_bcp_of_bisacBlock v _ (List.length_pos.mpr h) (strHas_bisacBlock_label _)
  · intro h
    exact strHas_bcp_of_themaBlock v _ (List.length_pos.mpr h) (strHas_themaBlock_label _)
  · intro h
    exact strHas_bcp_of_ibicBlock v _ (List.length_pos.mpr h) (strHas_ibicBlock_label _)

theorem loopGo_succ_none {V : Vocab} {gw : Nat → String → Option Candidate}
    {base : String} {fuel attempt : Nat} {cur : String} {acc : List String}
    (h : gw attempt cur = none) :
    loopGo V gw base (fuel + 1) attempt cur acc = .failed (acc ++ [cur]) := by
  simp [loopGo, h]

theorem loopGo_succ_valid {V : Vocab} {gw : Nat → String → Option Candidate}
    {base : String} {fuel attempt : Nat} {cur : String} {acc : List String}
    {c : Candidate} (hg : gw attempt cur = some c)
    (hv : (detectInvalidCodes V c).isValid = true) :
    loopGo V gw base (fuel + 1) attempt cur acc =
      .finished (acc ++ [cur]) c (detectInvalidCodes V c) := by
  simp [loopGo, hg, hv]

theorem loopGo_one_invalid {V : Vocab} {gw : Nat → String → Option Candidate}
    {base : String} {attempt : Nat} {cur : String} {acc : List String}
    {c : Candidate} (hg : gw attempt cur = some c)
    (hv : (detectInvalidCodes V c).isValid = false) :
    loopGo V gw base 1 attempt cur acc =
      .finished (acc ++ [cur]) c (detectInvalidCodes V c) := by
  simp [loopGo, hg, hv]

theorem loopGo_succ_retry {V : Vocab} {gw : Nat → String → Option Candidate}
    {base : String} {fuel attempt : Nat} {cur : String} {acc : List String}
    {c : Candidate} (hg : gw attempt cur = some c)
    (hv : (detectInvalidCodes V c).isValid = false) :
    loopGo V gw base (fuel + 2) attempt cur acc =
      loopGo V gw base (fuel + 1) (attempt + 1)
        (base ++ buildCorrectionPrompt (detectInvalidCodes V c)) (acc ++ [cur]) := by
  simp [loopGo, hg, hv]

theorem runAnalysis_prompts (V : Vocab) (gw : Nat → String → Option Candidate)
    (base text : String) (wc : Int) (maxR : Nat) :
    (runAnalysis V gw base text wc maxR).1 =
      (loopGo V gw base maxR 1 base []).prompts := by
  rw [runAnalysis]
  cases loopGo V gw base maxR 1 base [] with
  | failed used => rfl
  | finished used last v => rfl

theorem loopGo_all_invalid (V : Vocab) (gw : Nat → String → Option Candidate)
    (base : String)
    (htot : ∀ j p, ∃ c, gw j p = some c ∧ (detectInvalidCodes V c).isValid = false) :
    ∀ fuel, 1 ≤ fuel → ∀ attempt cur acc,
      ∃ used last v, loopGo V gw base fuel attempt cur acc = .finished used last v ∧
        used.length = acc.length + fuel ∧ v.isValid = false := by
  intro fuel
  induction fuel with
  | zero => omega
  | succ f ih =>
    intro _ attempt cur acc
    obtain ⟨c, hg, hv⟩ := htot attempt cur
    cases f with
    | zero =>
      exact ⟨acc ++ [cur], c, _, loopGo_one_invalid hg hv, by simp, hv⟩
    | succ f2 =>
      rw [loopGo_succ_retry hg hv]
      obtain ⟨used, last, v, heq, hlen, hv2⟩ := ih (by omega) (attempt + 1) _ (acc ++ [cur])
      refine ⟨used, last, v, heq, ?_, hv2⟩
      simp at hlen
      omega

theorem loopGo_fail_at (V : Vocab) (gw : Nat → String → Option Candidate)
    (base : String) (k : Nat)
    (hbefore : ∀ j p, 1 ≤ j → j < k →
      ∃ c, gw j p = some c ∧ (detectInvalidCodes V c).isValid = false)
    (hat : ∀ p, gw k p = none) :
    ∀ fuel attempt cur acc, 1 ≤ attempt → attempt ≤ k → k + 1 ≤ attempt + fuel →
      ∃ used, loopGo V gw base fuel attempt cur acc = .failed used ∧
        used.length = acc.length + (k + 1 - attempt) := by
  intro fuel
  induction fuel with
  | zero =>
    intro attempt cur acc h1 h2 h3
    omega
  | succ f ih =>
    intro attempt cur acc h1 h2 h3
    by_cases hak : attempt = k
    · subst hak
      refine ⟨acc ++ [cur], loopGo_succ_none (hat cur), ?_⟩
      simp only [List.length_append, List.length_cons, List.length_nil]
      omega
    · have hlt : attempt < k := lt_of_le_of_ne h2 hak
      obtain ⟨c, hg, hv⟩ := hbefore attempt cur h1 hlt
      cases f with
      | zero => omega
      | succ f2 =>
        rw [loopGo_succ_retry hg hv]
        obtain ⟨used, heq, hlen⟩ :=
          ih (attempt + 1) _ (acc ++ [cur]) (by omega) (by omega) (by omega)
        refine ⟨used, heq, ?_⟩
        simp at hlen
        omega

theorem loopGo_valid_at (V : Vocab) (gw : Nat → String → Option Candidate)
    (base : String) (k : Nat)
    (hbefore : ∀ j p, 1 ≤ j → j < k →
      ∃ c, gw j p = some c ∧ (detectInvalidCodes V c).isValid = false)
    (hat : ∀ p, ∃ c, gw k p = some c ∧ (detectInvalidCodes V c).isValid = true) :
    ∀ fuel attempt cur acc, 1 ≤ attempt → attempt ≤ k → k + 1 ≤ attempt + fuel →
      ∃ used last v, loopGo V gw base fuel attempt cur acc = .finished used last v ∧
        used.length = acc.length + (k + 1 - attempt) ∧ v.isValid = true := by
  intro fuel
  induction fuel with
  | zero =>
    intro attempt cur acc h1 h2 h3
    omega
  | succ f ih =>
    intro attempt cur acc h1 h2 h3
    by_cases hak : attempt = k
    · subst hak
      obtain ⟨c, hg, hv⟩ := hat cur
      refine ⟨acc ++ [cur], c, _, loopGo_succ_valid hg hv, ?_, hv⟩
      simp only [List.length_append, List.length_cons, List.length_nil]
      omega
    · have hlt : attempt < k := lt_of_le_of_ne h2 hak
      obtain ⟨c, hg, hv⟩ := hbefore attempt cur h1 hlt
      cases f with
      | zero => omega
      | succ f2 =>
        rw [loopGo_succ_retry hg hv]
        obtain ⟨used, last, v, heq, hlen, hval⟩ :=
          ih (attempt + 1) _ (acc ++ [cur]) (by omega) (by omega) (by omega)
        refine ⟨used, last, v, heq, ?_, hval⟩
        simp at hlen
        omega

theorem loopGo_prompt_shape (V : Vocab) (gw : Nat → String → Option Candidate)
    (base : String) :
    ∀ fuel attempt cur acc p,
      p ∈ (loopGo V gw base fuel attempt cur acc).prompts →
      p ∈ acc ∨ p = cur ∨ ∃ c, (detectInvalidCodes V c).isValid = false ∧
        p = base ++ buildCorrectionPrompt (detectInvalidCodes V c) := by
  intro fuel
  induction fuel with
  | zero =>
    intro attempt cur acc p hp
    exact Or.inl (by simpa [loopGo, LoopResult.prompts] using hp)
  | succ f ih =>
    intro attempt cur acc p hp
    cases hg : gw attempt cur with
    | none =>
      rw [loopGo_succ_none hg] at hp
      rcases (by simpa [LoopResult.prompts] using hp : p ∈ acc ∨ p = cur) with h | h
      · exact Or.inl h
      · exact Or.inr (Or.inl h)
    | some c =>
      by_cases hv : (detectInvalidCodes V c).isValid
      · rw [loopGo_succ_valid hg hv] at hp
        rcases (by simpa [LoopResult.prompts] using hp : p ∈ acc ∨ p = cur) with h | h
        · exact Or.inl h
        · exact Or.inr (Or.inl h)
      · have hv2 : (detectInvalidCodes V c).isValid = false := by
          simpa using hv
        cases f with
        | zero =>
          rw [loopGo_one_invalid hg hv2] at hp
          rcases (by simpa [LoopResult.prompts] using hp : p ∈ acc ∨ p = cur) with h | h
          · exact Or.inl h
          · exact Or.inr (Or.inl h)
        | succ f2 =>
          rw [loopGo_succ_retry hg hv2] at hp
          rcases ih (attempt + 1) _ (acc ++ [cur]) p hp with h | h | h
          · rcases List.mem_append.mp h with h2 | h2
            · exact Or.inl h2
            · exact Or.inr (Or.inl (by simpa using h2))
          · exact Or.inr (Or.inr ⟨c, hv2, h⟩)
          · exact Or.inr (Or.inr h)

/-- C6 (amended): after a failed attempt the correction text is appended to
the base prompt after discarding any previous correction, so every prompt the
orchestrator ever uses is either the base prompt (attempt 1) or the base
prompt followed by exactly one correction block, built from one failed
validation; correction blocks do not accumulate across retries. -/
theorem retryPrompt_single_block (V : Vocab) (gw : Nat → String → Option Candidate)
    (base text : String) (wc : Int) (maxR : Nat) :
    ∀ p ∈ (runAnalysis V gw base text wc maxR).1,
      p = base ∨ ∃ c, (detectInvalidCodes V c).isValid = false ∧
        p = base ++ buildCorrectionPrompt (detectInvalidCodes V c) := by
  intro p hp
  rw [runAnalysis_prompts] at hp
  rcases loopGo_prompt_shape V gw base maxR 1 base [] p hp with h | h | h
  · cases h
  · exact Or.inl h
  · exact Or.inr h

/-- Closed instance of `retryPrompt_single_block` at the base prompt of a
concrete run. -/
theorem retryPrompt_single_block_witness :
    ("" : String) = "" ∨ ∃ c, (detectInvalidCodes vocabEx c).isValid = false ∧
      ("" : String) = "" ++ buildCorrectionPrompt (detectInvalidCodes vocabEx c) :=
  retryPrompt_single_block vocabEx gwAlwaysValid "" "txt" 0 3 "" (by decide)

set_option maxRecDepth 100000

/-- C6 counterexample: run the loop with the base prompt `""`, MAX_RETRIES
= 3, and a gateway whose attempt-1 candidate is rejected for the tag
`"AAATAG"` and whose attempt-2 candidate is rejected for the tag `"BBBTAG"`.
Three prompts are used; the claim says the prompt of attempt 3 carries one
correction block per completed failed attempt, hence one mentioning the
rejected value `"AAATAG"` of attempt 1 (every block quotes its rejected
values verbatim), but that prompt equals the base prompt plus only the
attempt-2 correction block: it contains `"BBBTAG"` and does not contain
`"AAATAG"` at all. -/
theorem retryPrompt_not_cumulative_cex :
    (runAnalysis vocabEx gwTwoTags "" "txt" 0 3).1.length = 3 ∧
    (detectInvalidCodes vocabEx (candWithTag "AAATAG")).invalidTags = ["AAATAG"] ∧
    (runAnalysis vocabEx gwTwoTags "" "txt" 0 3).1.getD 2 "" =
      "" ++ buildCorrectionPrompt (detectInvalidCodes vocabEx (candWithTag "BBBTAG")) ∧
    strHas ((runAnalysis vocabEx gwTwoTags "" "txt" 0 3).1.getD 2 "") "BBBTAG" = true ∧
    strHas ((runAnalysis vocabEx gwTwoTags "" "txt" 0 3).1.getD 2 "") "AAATAG" = false := by
  refine ⟨rfl, rfl, by decide, by decide, by decide⟩

/-- C7: if every attempt before `k` fails validation and the gateway answers
attempt `k ≤ maxRetries` with a valid candidate, the orchestrator accepts at
attempt `k` and never invokes the gateway again: exactly `k` invocations
happen, and the response is a success.  With `k = 1` this is the
early-termination scenario of the spec: a gateway valid on attempt 1 is invoked exactly
once. -/
theorem valid_attempt_stops (V : Vocab) (gw : Nat → String → Option Candidate)
    (base text : String) (wc : Int) (maxR k : Nat)
    (hk1 : 1 ≤ k) (hkm : k ≤ maxR)
    (hbefore : ∀ j p, 1 ≤ j → j < k →
      ∃ c, gw j p = some c ∧ (detectInvalidCodes V c).isValid = false)
    (hat : ∀ p, ∃ c, gw k p = some c ∧ (detectInvalidCodes V c).isValid = true) :
    (runAnalysis V gw base text wc maxR).1.length = k ∧
    ∃ r, (runAnalysis V gw base text wc maxR).2 = .ok r := by
  obtain ⟨used, last, v, heq, hlen, hval⟩ :=
    loopGo_valid_at V gw base k hbefore hat maxR 1 base [] (le_refl 1) hk1 (by omega)
  constructor
  · rw [runAnalysis_prompts, heq]
    show used.length = k
    simp at hlen
    omega
  · rw [runAnalysis, heq]
    exact ⟨_, rfl⟩

/-- Closed instance of `valid_attempt_stops`: the always-valid gateway stub
is invoked exactly once in a MAX_RETRIES = 3 run and the request succeeds. -/
theorem valid_attempt_stops_witness :
    (runAnalysis vocabEx gwAlwaysValid "" "txt" 0 3).1.length = 1 ∧
    ∃ r, (runAnalysis vocabEx gwAlwaysValid "" "txt" 0 3).2 = .ok r :=
  valid_attempt_stops vocabEx gwAlwaysValid "" "txt" 0 3 1 (by omega) (by omega)
    (fun j p h1 h2 => absurd h2 (by omega))
    (fun p => ⟨candValid, rfl, by decide⟩)

/-- C8: when every attempt yields a candidate failing validation, the
orchestrator performs all `maxRetries ≥ 1` attempts and still answers 200
with the last candidate normalized (invalid entries removed), not an error;
and on every loop exit carrying a candidate — the accepted path included —
the response is built by normalizing that candidate, so normalization is
unconditional. -/
theorem exhaustion_normalizes (V : Vocab) (gw : Nat → String → Option Candidate)
    (base text : String) (wc : Int) (maxR : Nat)
    (hm : 1 ≤ maxR)
    (htot : ∀ j p, ∃ c, gw j p = some c ∧ (detectInvalidCodes V c).isValid = false) :
    (∃ used last v, loopGo V gw base maxR 1 base [] = .finished used last v ∧
      used.length = maxR ∧ v.isValid = false ∧
      runAnalysis V gw base text wc maxR =
        (used, .ok { toCandidate := normalizeCandidate V last
                     wordCount := wc, rawText := text })) ∧
    (∀ (gw2 : Nat → String → Option Candidate) (maxR2 : Nat) used2 last2 v2,
      loopGo V gw2 base maxR2 1 base [] = .finished used2 last2 v2 →
      runAnalysis V gw2 base text wc maxR2 =
        (used2, .ok { toCandidate := normalizeCandidate V last2
                      wordCount := wc, rawText := text })) := by
  constructor
  · obtain ⟨used, last, v, heq, hlen, hv⟩ :=
      loopGo_all_invalid V gw base htot maxR hm 1 base []
    refine ⟨used, last, v, heq, by simpa using hlen, hv, ?_⟩
    rw [runAnalysis, heq]
  · intro gw2 maxR2 used2 last2 v2 heq
    rw [runAnalysis, heq]

/-- Closed instance of `exhaustion_normalizes`: a stub that always answers
with one invalid tag exhausts all three attempts, and the request still
succeeds with the normalized last candidate. -/
theorem exhaustion_normalizes_witness :
    ∃ used last v, loopGo vocabEx gwAlwaysInvalid "" 3 1 "" [] = .finished used last v ∧
      used.length = 3 ∧ v.isValid = false ∧
      runAnalysis vocabEx gwAlwaysInvalid "" "txt" 0 3 =
        (used, .ok { toCandidate := normalizeCandidate vocabEx last
                     wordCount := 0, rawText := "txt" }) :=
  (exhaustion_normalizes vocabEx gwAlwaysInvalid "" "txt" 0 3 (by omega)
    (fun j p => ⟨candWithTag "AAATAG", rfl, by decide⟩)).1

/-- C9: a gateway failure (empty response, transport failure, or parse
failure) at any reachable attempt `k` aborts the whole request immediately:
the gateway is invoked exactly `k` times — never re-invoked after the
failure — and the caller receives the 500 error, not a result. -/
theorem gateway_failure_fatal (V : Vocab) (gw : Nat → String → Option Candidate)
    (base text : String) (wc : Int) (maxR k : Nat)
    (hk1 : 1 ≤ k) (hkm : k ≤ maxR)
    (hbefore : ∀ j p, 1 ≤ j → j < k →
      ∃ c, gw j p = some c ∧ (detectInvalidCodes V c).isValid = false)
    (hat : ∀ p, gw k p = none) :
    ∃ used, runAnalysis V gw base text wc maxR = (used, .err) ∧ used.length = k := by
  obtain ⟨used, heq, hlen⟩ :=
    loopGo_fail_at V gw base k hbefore hat maxR 1 base [] (le_refl 1) hk1 (by omega)
  refine ⟨used, ?_, ?_⟩
  · rw [runAnalysis, heq]
  · simp at hlen
    omega

/-- Closed instance of `gateway_failure_fatal`: the always-failing gateway
stub is invoked once and the request ends in the 500 error. -/
theorem gateway_failure_fatal_witness :
    ∃ used, runAnalysis vocabEx gwAlwaysNone "" "txt" 0 3 = (used, .err) ∧
      used.length = 1 :=
  gateway_failure_fatal vocabEx gwAlwaysNone "" "txt" 0 3 1 (by omega) (by omega)
    (fun j p h1 h2 => absurd h2 (by omega)) (fun p => rfl)

/-- C10: on success the response is the last candidate of the loop with only
`tags` and `classifications` changed by normalization; `title`,
`foundSubtitle`, `subtitleSuggestions`, `authorName`, `authorBio`,
`synopsis` and `citations` pass through unchanged, and the response
additionally carries the `wordCount` of the request and the full original input
text echoed verbatim as `rawText`. -/
theorem success_response_frame (V : Vocab) (gw : Nat → String → Option Candidate)
    (base text : String) (wc : Int) (maxR : Nat) (used : List String)
    (last : Candidate) (v : ValidationResult)
    (h : loopGo V gw base maxR 1 base [] = .finished used last v) :
    ∃ r, runAnalysis V gw base text wc maxR = (used, .ok r) ∧
      r.title = last.title ∧ r.foundSubtitle = last.foundSubtitle ∧
      r.subtitleSuggestions = last.subtitleSuggestions ∧
      r.authorName = last.authorName ∧ r.authorBio = last.authorBio ∧
      r.synopsis = last.synopsis ∧ r.citations = last.citations ∧
      r.tags = last.tags.filter (fun tag => V.etiquetas.contains tag) ∧
      r.classifications = normalizeClassifications V last.classifications ∧
      r.wordCount = wc ∧ r.rawText = text := by
  refine ⟨{ toCandidate := normalizeCandidate V last
            wordCount := wc, rawText := text }, ?_,
    rfl, rfl, rfl, rfl, rfl, rfl, rfl, rfl, rfl, rfl, rfl⟩
  rw [runAnalysis, h]

/-- Closed instance of `success_response_frame` for a run accepting the
candidate of the always-valid stub on attempt 1. -/
theorem success_response_frame_witness :
    ∃ r, runAnalysis vocabEx gwAlwaysValid "" "txt" 0 3 = ([""], .ok r) ∧
      r.title = candValid.title ∧ r.foundSubtitle = candValid.foundSubtitle ∧
      r.subtitleSuggestions = candValid.subtitleSuggestions ∧
      r.authorName = candValid.authorName ∧ r.authorBio = candValid.authorBio ∧
      r.synopsis = candValid.synopsis ∧ r.citations = candValid.citations ∧
      r.tags = candValid.tags.filter (fun tag => vocabEx.etiquetas.contains tag) ∧
      r.classifications = normalizeClassifications vocabEx candValid.classifications ∧
      r.wordCount = 0 ∧ r.rawText = "txt" :=
  success_response_frame vocabEx gwAlwaysValid "" "txt" 0 3 [""] candValid
    (detectInvalidCodes vocabEx candValid) (by decide)

/-- Closed instance of `buildCorrectionPrompt_complete` at the concrete
scenario of the spec: the rejected code `"FIC999999"` appears verbatim, inside
its labeled BISAC block. -/
theorem buildCorrectionPrompt_complete_witness :
    strHas (buildCorrectionPrompt vScenario) "FIC999999" = true ∧
    strHas (buildCorrectionPrompt vScenario) bisacLabel = true :=
  ⟨(buildCorrectionPrompt_complete vScenario rfl).2.1 "FIC999999" (by decide),
    (buildCorrectionPrompt_complete vScenario rfl).2.2.2.2.2.1 (by decide)⟩

/-- Closed instance of `normalize_shape` at the second concrete scenario
of the spec: the kept tag list and the rewritten BISAC main tier. -/
theorem normalize_shape_witness :
    (normalizeCandidate vocabEx candScenario2).tags =
      candScenario2.tags.filter (fun tag => vocabEx.etiquetas.contains tag) ∧
    tierNormalized vocabEx.bisac candScenario2.classifications.bisac.main
      (normalizeCandidate vocabEx candScenario2).classifications.bisac.main :=
  ⟨(normalize_shape vocabEx candScenario2 (by decide) (by decide) (by decide)).1,
    (normalize_shape vocabEx candScenario2 (by decide) (by decide) (by decide)).2.1⟩

end ElBuenEditor
